import Mathlib

/-!
Shallow embedding of the particle simulation engine from
`src/js/particle-system.js` (classes `Particle`, `SpatialHash`,
`ParticleSystem`), over exact rationals.

JavaScript `Math.random()` draws are modelled as an explicit stream
`rand : ℕ → ℚ` consumed in source order (indices advance by 9 per spawned
particle: 7 draws inside `emit` plus 2 inside `Particle.init`).
Transcendental library calls (`Math.PI`, `Math.sqrt`, `Math.sin`,
`Math.cos`) are modelled by an explicit record of functions `MathExt`
passed to the definitions that the source code has call them; theorems
quantify over it, adding only the hypotheses they need (e.g. `sqrt 0 = 0`).
The JavaScript remainder operator `%` (sign follows the dividend) is
modelled by `jsMod`.
-/

/-- Truncation toward zero, as JavaScript coerces `trunc(a/b)` inside `%`. -/
def jsTrunc (q : ℚ) : ℤ := if 0 ≤ q then ⌊q⌋ else ⌈q⌉

/-- JavaScript remainder operator `a % b`: the result has the sign of `a`. -/
def jsMod (a b : ℚ) : ℚ := a - b * (jsTrunc (a / b) : ℤ)

/-- Oracle for the `Math` library functions the source calls. -/
structure MathExt where
  pi : ℚ
  sqrt : ℚ → ℚ
  sin : ℚ → ℚ
  cos : ℚ → ℚ

/-- State of one particle (class `Particle`, lines 14-129). -/
structure Particle where
  x : ℚ
  y : ℚ
  vx : ℚ
  vy : ℚ
  ax : ℚ
  ay : ℚ
  size : ℚ
  life : ℚ
  maxLife : ℚ
  hue : ℚ
  saturation : ℚ
  lightness : ℚ
  alpha : ℚ
  active : Bool
  mass : ℚ
  angle : ℚ
  angularVelocity : ℚ
deriving DecidableEq

/-- The `Particle` constructor (lines 15-33). -/
def Particle.new : Particle :=
  { x := 0, y := 0, vx := 0, vy := 0, ax := 0, ay := 0, size := 2,
    life := 1, maxLife := 1, hue := 0, saturation := 100, lightness := 50,
    alpha := 1, active := false, mass := 1, angle := 0, angularVelocity := 0 }

/-- `Particle.init` (lines 38-56); `r1`, `r2` are the two `Math.random()`
draws used for `angle` and `angularVelocity`. -/
def Particle.init (p : Particle) (pi x y vx vy size life hue r1 r2 : ℚ) : Particle :=
  { p with
    x := x
    y := y
    vx := vx
    vy := vy
    ax := 0
    ay := 0
    size := size
    life := life
    maxLife := life
    hue := hue
    saturation := 100
    lightness := 50
    alpha := 1
    active := true
    mass := size * (1/10)
    angle := r1 * pi * 2
    angularVelocity := (r2 - 1/2) * (1/10) }

/-- `Particle.update` (lines 61-89): integrate, age, retire.  `width` and
`height` are parameters of the source method but unused in its body. -/
def Particle.update (p : Particle) (width height deltaTime : ℚ) : Particle :=
  if p.active = false then p else
  let vx := p.vx + p.ax * deltaTime
  let vy := p.vy + p.ay * deltaTime
  let x := p.x + vx * deltaTime
  let y := p.y + vy * deltaTime
  let angle := p.angle + p.angularVelocity * deltaTime
  let life := p.life - (1/100) * deltaTime
  let alpha := max 0 (life / p.maxLife)
  let active := if life ≤ 0 then false else p.active
  { p with
    x := x
    y := y
    vx := vx
    vy := vy
    angle := angle
    life := life
    alpha := alpha
    active := active
    ax := 0
    ay := 0 }

/-- Iterated `Particle.update`, for per-frame advance claims. -/
def Particle.updateN (p : Particle) (width height deltaTime : ℚ) : ℕ → Particle
  | 0 => p
  | k + 1 => (p.update width height deltaTime).updateN width height deltaTime k

/-- `Particle.applyForce` (lines 94-97): `acceleration += force / mass`. -/
def Particle.applyForce (p : Particle) (fx fy : ℚ) : Particle :=
  { p with ax := p.ax + fx / p.mass, ay := p.ay + fy / p.mass }

/-- `Particle.bounce` (lines 102-118): clamp to the boundary and reflect the
velocity component, scaled by `damping`.  The `x` branch runs before the
`y` branch, as in the source. -/
def Particle.bounce (p : Particle) (width height damping : ℚ) : Particle :=
  let p1 :=
    if p.x < 0 then { p with x := 0, vx := p.vx * (-damping) }
    else if p.x > width then { p with x := width, vx := p.vx * (-damping) }
    else p
  if p1.y < 0 then { p1 with y := 0, vy := p1.vy * (-damping) }
  else if p1.y > height then { p1 with y := height, vy := p1.vy * (-damping) }
  else p1

/-- `Particle.wrap` (lines 123-128): four sequential `if`s on the mutated
state, exactly as in the source. -/
def Particle.wrap (p : Particle) (width height : ℚ) : Particle :=
  let p1 := if p.x < 0 then { p with x := width } else p
  let p2 := if p1.x > width then { p1 with x := 0 } else p1
  let p3 := if p2.y < 0 then { p2 with y := height } else p2
  if p3.y > height then { p3 with y := 0 } else p3

/-- Spatial hash grid (class `SpatialHash`, lines 134-187).  The source's
string key `"cellX,cellY"` is modelled as the pair of cell coordinates, and
the `Map` as an association list in insertion order. -/
structure SpatialHash where
  cellSize : ℚ
  grid : List ((ℤ × ℤ) × List Particle)
deriving DecidableEq

/-- `SpatialHash.getCellKey` (lines 143-147). -/
def SpatialHash.getCellKey (h : SpatialHash) (x y : ℚ) : ℤ × ℤ :=
  (⌊x / h.cellSize⌋, ⌊y / h.cellSize⌋)

/-- `SpatialHash.clear` (lines 152-154). -/
def SpatialHash.clear (h : SpatialHash) : SpatialHash :=
  { h with grid := [] }

/-- Append to the bucket of `key`, creating it if absent (`Map.get/set`). -/
def gridInsert (g : List ((ℤ × ℤ) × List Particle)) (key : ℤ × ℤ)
    (p : Particle) : List ((ℤ × ℤ) × List Particle) :=
  match g with
  | [] => [(key, [p])]
  | (k, ps) :: rest =>
    if k = key then (k, ps ++ [p]) :: rest else (k, ps) :: gridInsert rest key p

/-- `SpatialHash.insert` (lines 159-165). -/
def SpatialHash.insert (h : SpatialHash) (p : Particle) : SpatialHash :=
  { h with grid := gridInsert h.grid (h.getCellKey p.x p.y) p }

/-- Physics parameters (constructor lines 207-223). -/
structure Physics where
  mode : String
  gravity : ℚ
  gravityX : ℚ
  gravityY : ℚ
  magnetismStrength : ℚ
  magnetX : ℚ
  magnetY : ℚ
  turbulenceStrength : ℚ
  turbulenceFrequency : ℚ
  orbitalCenterX : ℚ
  orbitalCenterY : ℚ
  orbitalStrength : ℚ
  damping : ℚ
  bounceEnabled : Bool
  wrapEnabled : Bool
deriving DecidableEq

/-- Emission parameters (constructor lines 226-239). -/
structure Emission where
  rate : ℚ
  x : ℚ
  y : ℚ
  spread : ℚ
  velocityMin : ℚ
  velocityMax : ℚ
  sizeMin : ℚ
  sizeMax : ℚ
  lifeMin : ℚ
  lifeMax : ℚ
  hue : ℚ
  hueVariation : ℚ
deriving DecidableEq

/-- Audio reactivity parameters (constructor lines 242-247). -/
structure AudioReactive where
  emissionMultiplier : ℚ
  sizeMultiplier : ℚ
  velocityMultiplier : ℚ
  hueShift : ℚ
deriving DecidableEq

/-- State of the engine (class `ParticleSystem`, lines 192-516). -/
structure ParticleSystem where
  maxParticles : ℕ
  particles : List Particle
  particlePool : List Particle
  spatialHash : SpatialHash
  physics : Physics
  emission : Emission
  audioReactive : AudioReactive
  width : ℚ
  height : ℚ
  activeParticleCount : ℕ
  time : ℕ
deriving DecidableEq

/-- The `ParticleSystem` constructor (lines 193-256) with its defaults. -/
def ParticleSystem.new (maxParticles : ℕ) : ParticleSystem :=
  { maxParticles := maxParticles
    particles := []
    particlePool := List.replicate maxParticles Particle.new
    spatialHash := { cellSize := 50, grid := [] }
    physics :=
      { mode := "gravity"
        gravity := 1/10
        gravityX := 0
        gravityY := 1/10
        magnetismStrength := 1/2
        magnetX := 0
        magnetY := 0
        turbulenceStrength := 3/10
        turbulenceFrequency := 1/100
        orbitalCenterX := 1/2
        orbitalCenterY := 1/2
        orbitalStrength := 1/5
        damping := 99/100
        bounceEnabled := false
        wrapEnabled := true }
    emission :=
      { rate := 10
        x := 1/2
        y := 1/2
        spread := 1/5
        velocityMin := 1
        velocityMax := 3
        sizeMin := 2
        sizeMax := 6
        lifeMin := 100
        lifeMax := 200
        hue := 200
        hueVariation := 60 }
    audioReactive :=
      { emissionMultiplier := 1
        sizeMultiplier := 1
        velocityMultiplier := 1
        hueShift := 0 }
    width := 1920
    height := 1080
    activeParticleCount := 0
    time := 0 }

/-- Number of active pool slots (`getActiveParticles().length`). -/
def countActive (l : List Particle) : ℕ :=
  (l.filter fun p => p.active).length

/-- Index of the first inactive pool slot: `ParticleSystem.getParticle`
(lines 271-278) scans linearly and returns `null` when the pool is
exhausted. -/
def getParticleIdx : List Particle → Option ℕ
  | [] => none
  | p :: rest =>
    if p.active = false then some 0 else (getParticleIdx rest).map (fun i => i + 1)

/-- One spawned particle of `ParticleSystem.emit` (lines 283-315): the body
of one loop iteration, with `rand k`, …, `rand (k+8)` standing for the nine
`Math.random()` draws of that iteration in source order, and `p` the pool
slot being reinitialised. -/
def ParticleSystem.spawnParticle (ext : MathExt) (s : ParticleSystem)
    (audioEnergy : ℚ) (rand : ℕ → ℚ) (k : ℕ) (p : Particle) : Particle :=
  let x := s.emission.x * s.width + (rand k - 1/2) * s.emission.spread * s.width
  let y := s.emission.y * s.height + (rand (k+1) - 1/2) * s.emission.spread * s.height
  let angle := rand (k+2) * ext.pi * 2
  let speed := s.emission.velocityMin + rand (k+3) * (s.emission.velocityMax - s.emission.velocityMin)
  let speedMultiplier := 1 + audioEnergy * s.audioReactive.velocityMultiplier
  let vx := ext.cos angle * speed * speedMultiplier
  let vy := ext.sin angle * speed * speedMultiplier
  let size := s.emission.sizeMin + rand (k+4) * (s.emission.sizeMax - s.emission.sizeMin)
  let sizeMultiplier := 1 + audioEnergy * s.audioReactive.sizeMultiplier
  let actualSize := size * sizeMultiplier
  let life := s.emission.lifeMin + rand (k+5) * (s.emission.lifeMax - s.emission.lifeMin)
  let hue := jsMod (s.emission.hue + (rand (k+6) - 1/2) * s.emission.hueVariation
    + s.audioReactive.hueShift) 360
  p.init ext.pi x y vx vy actualSize life hue (rand (k+7)) (rand (k+8))

/-- The `for` loop of `emit` (lines 287-314): `n` iterations remain, `k` is
the index of the next random draw; each iteration takes the first inactive
slot and reinitialises it, stopping when `getParticle` returns `null`. -/
def ParticleSystem.emitLoop (ext : MathExt) (s : ParticleSystem)
    (audioEnergy : ℚ) (rand : ℕ → ℚ) : ℕ → ℕ → List Particle → List Particle
  | 0, _, pool => pool
  | n + 1, k, pool =>
    match getParticleIdx pool with
    | none => pool
    | some i =>
      ParticleSystem.emitLoop ext s audioEnergy rand n (k + 9)
        (pool.set i (ParticleSystem.spawnParticle ext s audioEnergy rand k
          (pool.getD i Particle.new)))

/-- `ParticleSystem.emit` (lines 283-315). -/
def ParticleSystem.emit (ext : MathExt) (s : ParticleSystem)
    (count audioEnergy : ℚ) (rand : ℕ → ℚ) : ParticleSystem :=
  let actualCount :=
    (⌊count * (1 + audioEnergy * s.audioReactive.emissionMultiplier)⌋).toNat
  { s with particlePool :=
      ParticleSystem.emitLoop ext s audioEnergy rand actualCount 0 s.particlePool }

/-- Arguments of one `emit` call, with its stream of random draws. -/
structure EmitCall where
  count : ℚ
  energy : ℚ
  rand : ℕ → ℚ

/-- A sequence of `emit` calls run left to right. -/
def ParticleSystem.emitSeq (ext : MathExt) (s : ParticleSystem)
    (calls : List EmitCall) : ParticleSystem :=
  calls.foldl (fun acc c => ParticleSystem.emit ext acc c.count c.energy c.rand) s

/-- `ParticleSystem.applyGravity` (lines 320-322). -/
def ParticleSystem.applyGravity (s : ParticleSystem) (p : Particle) : Particle :=
  p.applyForce s.physics.gravityX s.physics.gravityY

/-- `ParticleSystem.applyMagnetism` (lines 327-337). -/
def ParticleSystem.applyMagnetism (ext : MathExt) (s : ParticleSystem)
    (p : Particle) : Particle :=
  let dx := s.physics.magnetX - p.x
  let dy := s.physics.magnetY - p.y
  let distSq := dx * dx + dy * dy
  let dist := ext.sqrt distSq
  if dist > 0 then
    let force := s.physics.magnetismStrength * p.mass / (distSq + 100)
    p.applyForce (dx / dist * force) (dy / dist * force)
  else p

/-- `ParticleSystem.applyTurbulence` (lines 342-349). -/
def ParticleSystem.applyTurbulence (ext : MathExt) (s : ParticleSystem)
    (p : Particle) : Particle :=
  let noiseX := ext.sin (p.x * s.physics.turbulenceFrequency + (s.time : ℚ) * (1/100))
    * ext.cos (p.y * s.physics.turbulenceFrequency)
  let noiseY := ext.cos (p.x * s.physics.turbulenceFrequency)
    * ext.sin (p.y * s.physics.turbulenceFrequency + (s.time : ℚ) * (1/100))
  p.applyForce (noiseX * s.physics.turbulenceStrength) (noiseY * s.physics.turbulenceStrength)

/-- `ParticleSystem.applyOrbital` (lines 354-371). -/
def ParticleSystem.applyOrbital (ext : MathExt) (s : ParticleSystem)
    (p : Particle) : Particle :=
  let centerX := s.physics.orbitalCenterX * s.width
  let centerY := s.physics.orbitalCenterY * s.height
  let dx := p.x - centerX
  let dy := p.y - centerY
  let dist := ext.sqrt (dx * dx + dy * dy)
  if dist > 0 then
    let forceMag := s.physics.orbitalStrength
    let p1 := p.applyForce (-dy / dist * forceMag) (dx / dist * forceMag)
    let centripetalForce := (1/100 : ℚ)
    p1.applyForce (-dx / dist * centripetalForce) (-dy / dist * centripetalForce)
  else p

/-- The mode dispatch of `ParticleSystem.update` (lines 394-407): a `switch`
with no `default`, so an unknown mode applies no force. -/
def ParticleSystem.applyMode (ext : MathExt) (s : ParticleSystem)
    (p : Particle) : Particle :=
  if s.physics.mode = "gravity" then s.applyGravity p
  else if s.physics.mode = "magnetism" then ParticleSystem.applyMagnetism ext s p
  else if s.physics.mode = "turbulence" then ParticleSystem.applyTurbulence ext s p
  else if s.physics.mode = "orbital" then ParticleSystem.applyOrbital ext s p
  else p

/-- The audio-reactive block of `ParticleSystem.update` (lines 410-419):
applied only when `audioBands` is non-null with exactly 7 elements. -/
def ParticleSystem.applyAudioBands (audioBands : Option (List ℚ))
    (p : Particle) : Particle :=
  match audioBands with
  | some bands =>
    if bands.length = 7 then
      { p with
        vy := p.vy + bands.getD 1 0 * (1/2)
        vx := p.vx + (bands.getD 5 0 - 1/2) * (3/10)
        size := p.size * (1 + bands.getD 3 0 * (1/5)) }
    else p
  | none => p

/-- The per-particle body of the update loop (lines 386-437): skip inactive
slots, apply the mode force, the audio adjustments, damping, integration and
the boundary policy, in source order.  `s` is the engine state after
`this.time++`. -/
def ParticleSystem.frameStep (ext : MathExt) (s : ParticleSystem)
    (deltaTime : ℚ) (audioBands : Option (List ℚ)) (p : Particle) : Particle :=
  if p.active = false then p else
  let p1 := ParticleSystem.applyMode ext s p
  let p2 := ParticleSystem.applyAudioBands audioBands p1
  let p3 := { p2 with vx := p2.vx * s.physics.damping, vy := p2.vy * s.physics.damping }
  let p4 := p3.update s.width s.height deltaTime
  if s.physics.bounceEnabled then p4.bounce s.width s.height (4/5)
  else if s.physics.wrapEnabled then p4.wrap s.width s.height
  else p4

/-- `ParticleSystem.update` (lines 376-438): bump the frame counter, record
the count of slots active at loop entry, step every pool slot, and rebuild
the spatial hash from the stepped versions of the slots that were active at
loop entry. -/
def ParticleSystem.update (ext : MathExt) (s : ParticleSystem)
    (deltaTime : ℚ) (audioBands : Option (List ℚ)) : ParticleSystem :=
  let s1 := { s with time := s.time + 1 }
  { s1 with
    activeParticleCount := countActive s1.particlePool
    particlePool :=
      s1.particlePool.map (ParticleSystem.frameStep ext s1 deltaTime audioBands)
    spatialHash :=
      ((s1.particlePool.filter fun p => p.active).map
        (ParticleSystem.frameStep ext s1 deltaTime audioBands)).foldl
        SpatialHash.insert (SpatialHash.clear s1.spatialHash) }

/-- Iterated `ParticleSystem.update` with fixed arguments. -/
def ParticleSystem.updateN (ext : MathExt) (s : ParticleSystem)
    (deltaTime : ℚ) (audioBands : Option (List ℚ)) : ℕ → ParticleSystem
  | 0 => s
  | n + 1 =>
    ParticleSystem.updateN ext (ParticleSystem.update ext s deltaTime audioBands)
      deltaTime audioBands n

/-- `ParticleSystem.getActiveParticles` (lines 443-445). -/
def ParticleSystem.getActiveParticles (s : ParticleSystem) : List Particle :=
  s.particlePool.filter fun p => p.active

/-- `ParticleSystem.getActiveParticlesLOD` (lines 451-468): uniform stride
sampling once the active count exceeds `maxParticles`. -/
def ParticleSystem.getActiveParticlesLOD (s : ParticleSystem)
    (maxParticles : ℕ) : List Particle :=
  let active := s.getActiveParticles
  if active.length ≤ maxParticles then active
  else
    let step : ℚ := (active.length : ℚ) / (maxParticles : ℚ)
    (List.range maxParticles).map fun (i : ℕ) =>
      active.getD (⌊(i : ℚ) * step⌋).toNat Particle.new

/-- `ParticleSystem.setPhysicsMode` (lines 483-488). -/
def ParticleSystem.setPhysicsMode (s : ParticleSystem) (mode : String) : ParticleSystem :=
  let validModes := ["gravity", "magnetism", "turbulence", "orbital"]
  if validModes.contains mode then { s with physics := { s.physics with mode := mode } }
  else s

/-! ### Helper lemmas about the pool operations -/

theorem getD_map_of_lt (f : Particle → Particle) (l : List Particle) (i : ℕ)
    (hi : i < l.length) (d : Particle) :
    (l.map f).getD i d = f (l.getD i d) := by
  induction l generalizing i with
  | nil => simp at hi
  | cons a t ih =>
    cases i with
    | zero => simp
    | succ n =>
      simp only [List.map_cons, List.getD_cons_succ]
      exact ih n (by simpa using hi)

theorem getD_set_self (l : List Particle) (j : ℕ) (v d : Particle)
    (h : j < l.length) : (l.set j v).getD j d = v := by
  induction l generalizing j with
  | nil => simp at h
  | cons a t ih =>
    cases j with
    | zero => simp
    | succ n => simpa using ih n (by simpa using h)

theorem getD_set_ne (l : List Particle) (i j : ℕ) (v d : Particle)
    (h : j ≠ i) : (l.set j v).getD i d = l.getD i d := by
  induction l generalizing i j with
  | nil => simp
  | cons a t ih =>
    cases j with
    | zero =>
      cases i with
      | zero => exact absurd rfl h
      | succ m => simp
    | succ n =>
      cases i with
      | zero => simp
      | succ m =>
        simpa using ih m n (fun hc => h (by simp [hc]))

theorem getD_active_false_of_ge (l : List Particle) (i : ℕ)
    (h : l.length ≤ i) : (l.getD i Particle.new).active = false := by
  rw [List.getD_eq_getElem?_getD, List.getElem?_eq_none h]
  rfl

theorem countActive_le_length (l : List Particle) : countActive l ≤ l.length :=
  List.length_filter_le _ l

theorem countActive_eq_length_of_all (l : List Particle)
    (h : ∀ p ∈ l, p.active = true) : countActive l = l.length := by
  unfold countActive
  rw [List.filter_eq_self.2 h]

theorem countActive_cons (a : Particle) (t : List Particle) :
    countActive (a :: t) = (if a.active then 1 else 0) + countActive t := by
  cases ha : a.active <;> simp [countActive, List.filter_cons, ha, Nat.add_comm]

theorem countActive_set_inactive (l : List Particle) (j : ℕ) (v : Particle)
    (hj : j < l.length) (hin : (l.getD j Particle.new).active = false)
    (hv : v.active = true) :
    countActive (l.set j v) = countActive l + 1 := by
  induction l generalizing j with
  | nil => simp at hj
  | cons a t ih =>
    cases j with
    | zero =>
      simp only [List.getD_cons_zero] at hin
      simp [List.set_cons_zero, countActive_cons, hin, hv, Nat.add_assoc,
        Nat.add_comm 1 (countActive t)]
    | succ n =>
      have hj' : n < t.length := by simpa using hj
      have hin' : (t.getD n Particle.new).active = false := by simpa using hin
      simp only [List.set_cons_succ, countActive_cons, ih n hj' hin']
      omega

theorem countActive_map_pointwise (f : Particle → Particle) (l : List Particle)
    (h : ∀ p ∈ l, (f p).active = p.active) :
    countActive (l.map f) = countActive l := by
  induction l with
  | nil => rfl
  | cons a t ih =>
    have ha := h a (List.mem_cons_self a t)
    have ht := ih fun p hp => h p (List.mem_cons_of_mem a hp)
    simp [countActive_cons, ha, ht]

/-! ### Helper lemmas about `getParticleIdx` and `emitLoop` -/

theorem getParticleIdx_none_iff (l : List Particle) :
    getParticleIdx l = none ↔ ∀ p ∈ l, p.active = true := by
  induction l with
  | nil => simp [getParticleIdx]
  | cons a t ih =>
    cases ha : a.active with
    | false => simp [getParticleIdx, ha]
    | true =>
      simp only [getParticleIdx, ha]
      constructor
      · intro h
        have ht : getParticleIdx t = none := by
          cases hcase : getParticleIdx t with
          | none => rfl
          | some i => rw [hcase] at h; simp at h
        intro p hp
        rcases List.mem_cons.1 hp with hpa | hpt
        · rw [hpa]; exact ha
        · exact (ih.1 ht) p hpt
      · intro h
        have ht : getParticleIdx t = none :=
          ih.2 fun p hp => h p (List.mem_cons_of_mem a hp)
        simp [ht]

theorem getParticleIdx_some (l : List Particle) (i : ℕ)
    (h : getParticleIdx l = some i) :
    i < l.length ∧ (l.getD i Particle.new).active = false := by
  induction l generalizing i with
  | nil => simp [getParticleIdx] at h
  | cons a t ih =>
    cases ha : a.active with
    | false =>
      simp [getParticleIdx, ha] at h
      subst h
      simp [ha]
    | true =>
      have h2 : (getParticleIdx t).map (fun i => i + 1) = some i := by
        simpa [getParticleIdx, ha] using h
      cases hcase : getParticleIdx t with
      | none => rw [hcase] at h2; simp at h2
      | some j =>
        rw [hcase] at h2
        simp only [Option.map_some', Option.some.injEq] at h2
        subst h2
        obtain ⟨hlen, hact⟩ := ih j hcase
        constructor
        · simpa using Nat.succ_lt_succ hlen
        · simpa using hact

theorem getD_mem_of_lt (l : List Particle) (j : ℕ) (d : Particle)
    (h : j < l.length) : l.getD j d ∈ l := by
  rw [List.getD_eq_getElem?_getD, List.getElem?_eq_getElem h]
  exact List.getElem_mem h

theorem emitLoop_length (ext : MathExt) (s : ParticleSystem) (e : ℚ)
    (rand : ℕ → ℚ) (n k : ℕ) (pool : List Particle) :
    (ParticleSystem.emitLoop ext s e rand n k pool).length = pool.length := by
  induction n generalizing k pool with
  | zero => rfl
  | succ m ih =>
    unfold ParticleSystem.emitLoop
    cases hidx : getParticleIdx pool with
    | none => rfl
    | some i => rw [ih]; exact List.length_set pool i _

theorem spawnParticle_active (ext : MathExt) (s : ParticleSystem) (e : ℚ)
    (rand : ℕ → ℚ) (k : ℕ) (p : Particle) :
    (ParticleSystem.spawnParticle ext s e rand k p).active = true := rfl

theorem emitLoop_all_active_noop (ext : MathExt) (s : ParticleSystem) (e : ℚ)
    (rand : ℕ → ℚ) (n k : ℕ) (pool : List Particle)
    (h : ∀ p ∈ pool, p.active = true) :
    ParticleSystem.emitLoop ext s e rand n k pool = pool := by
  cases n with
  | zero => rfl
  | succ m =>
    unfold ParticleSystem.emitLoop
    rw [(getParticleIdx_none_iff pool).2 h]

theorem emitLoop_active_mono (ext : MathExt) (s : ParticleSystem) (e : ℚ)
    (rand : ℕ → ℚ) (n k : ℕ) (pool : List Particle) (i : ℕ)
    (h : (pool.getD i Particle.new).active = true) :
    ((ParticleSystem.emitLoop ext s e rand n k pool).getD i Particle.new).active = true := by
  induction n generalizing k pool with
  | zero => exact h
  | succ m ih =>
    unfold ParticleSystem.emitLoop
    cases hidx : getParticleIdx pool with
    | none => exact h
    | some j =>
      apply ih
      by_cases hji : j = i
      · subst hji
        obtain ⟨hlen, _⟩ := getParticleIdx_some pool j hidx
        rw [getD_set_self pool j _ _ hlen]
        exact spawnParticle_active ext s e rand k _
      · rw [getD_set_ne pool i j _ _ hji]
        exact h

theorem emitLoop_countActive (ext : MathExt) (s : ParticleSystem) (e : ℚ)
    (rand : ℕ → ℚ) (n k : ℕ) (pool : List Particle) :
    countActive (ParticleSystem.emitLoop ext s e rand n k pool)
      = min (countActive pool + n) pool.length := by
  induction n generalizing k pool with
  | zero =>
    show countActive pool = min (countActive pool + 0) pool.length
    have := countActive_le_length pool
    omega
  | succ m ih =>
    unfold ParticleSystem.emitLoop
    cases hidx : getParticleIdx pool with
    | none =>
      have hall := (getParticleIdx_none_iff pool).1 hidx
      have hfull := countActive_eq_length_of_all pool hall
      rw [hfull]
      omega
    | some j =>
      obtain ⟨hlen, hin⟩ := getParticleIdx_some pool j hidx
      rw [ih]
      rw [countActive_set_inactive pool j _ hlen hin
        (spawnParticle_active ext s e rand k _), List.length_set]
      have hlt : countActive pool < pool.length := by
        by_contra hge
        have heq : countActive pool = pool.length :=
          Nat.le_antisymm (countActive_le_length pool) (Nat.le_of_not_lt hge)
        unfold countActive at heq
        have := (List.filter_length_eq_length.mp heq) _ (getD_mem_of_lt pool j Particle.new hlen)
        rw [hin] at this
        simp at this
      omega

theorem emitLoop_preserves_pred (ext : MathExt) (s : ParticleSystem) (e : ℚ)
    (rand : ℕ → ℚ) (P : Particle → Prop)
    (hspawn : ∀ (k : ℕ) (q : Particle), P (ParticleSystem.spawnParticle ext s e rand k q)) :
    ∀ (n k : ℕ) (pool : List Particle),
      (∀ p ∈ pool, p.active = true → P p) →
      ∀ p ∈ ParticleSystem.emitLoop ext s e rand n k pool, p.active = true → P p := by
  intro n
  induction n with
  | zero => intro k pool h; exact h
  | succ m ih =>
    intro k pool h
    unfold ParticleSystem.emitLoop
    cases hidx : getParticleIdx pool with
    | none => exact h
    | some j =>
      apply ih
      intro p hp hact
      rcases List.mem_or_eq_of_mem_set hp with hmem | heq
      · exact h p hmem hact
      · rw [heq]; exact hspawn _ _

theorem all_active_of_countActive_eq_length (l : List Particle)
    (h : countActive l = l.length) : ∀ p ∈ l, p.active = true :=
  List.filter_length_eq_length.mp h

theorem emit_pool_eq (ext : MathExt) (s : ParticleSystem) (count e : ℚ)
    (rand : ℕ → ℚ) :
    (ParticleSystem.emit ext s count e rand).particlePool
      = ParticleSystem.emitLoop ext s e rand
          (⌊count * (1 + e * s.audioReactive.emissionMultiplier)⌋).toNat 0
          s.particlePool := rfl

theorem emit_pool_length (ext : MathExt) (s : ParticleSystem) (count e : ℚ)
    (rand : ℕ → ℚ) :
    (ParticleSystem.emit ext s count e rand).particlePool.length
      = s.particlePool.length := by
  rw [emit_pool_eq]
  exact emitLoop_length ext s e rand _ 0 s.particlePool

theorem emitSeq_pool_length (ext : MathExt) (calls : List EmitCall)
    (s : ParticleSystem) :
    (ParticleSystem.emitSeq ext s calls).particlePool.length
      = s.particlePool.length := by
  induction calls generalizing s with
  | nil => rfl
  | cons c rest ih =>
    show (ParticleSystem.emitSeq ext (ParticleSystem.emit ext s c.count c.energy c.rand) rest).particlePool.length = _
    rw [ih, emit_pool_length]

/-- Claim C1: for every sequence of `emit` calls (any counts, audio energies
and random draws), the number of active particles never exceeds the pool
capacity `maxParticles` fixed at construction; once every pool slot is
active a further `emit` leaves the pool unchanged (a silent no-op), and no
`emit` call ever deactivates a live particle (no eviction). -/
theorem capacity_invariant (ext : MathExt) (maxP : ℕ) (calls : List EmitCall) :
    countActive ((ParticleSystem.new maxP).emitSeq ext calls).particlePool ≤ maxP
    ∧ (∀ c : EmitCall,
        (∀ p ∈ ((ParticleSystem.new maxP).emitSeq ext calls).particlePool, p.active = true) →
        (((ParticleSystem.new maxP).emitSeq ext calls).emit ext c.count c.energy c.rand).particlePool
          = ((ParticleSystem.new maxP).emitSeq ext calls).particlePool)
    ∧ (∀ (c : EmitCall) (i : ℕ),
        ((((ParticleSystem.new maxP).emitSeq ext calls).particlePool).getD i Particle.new).active = true →
        (((((ParticleSystem.new maxP).emitSeq ext calls).emit ext c.count c.energy c.rand).particlePool).getD i Particle.new).active = true) := by
  refine ⟨?_, ?_, ?_⟩
  · have h1 := countActive_le_length ((ParticleSystem.new maxP).emitSeq ext calls).particlePool
    have h2 := emitSeq_pool_length ext calls (ParticleSystem.new maxP)
    have h3 : (ParticleSystem.new maxP).particlePool.length = maxP := by
      simp [ParticleSystem.new]
    omega
  · intro c hall
    rw [emit_pool_eq]
    exact emitLoop_all_active_noop ext _ c.energy c.rand _ 0 _ hall
  · intro c i hact
    rw [emit_pool_eq]
    exact emitLoop_active_mono ext _ c.energy c.rand _ 0 _ i hact

/-- Concrete oracle used by witnesses: `pi = 0`, `sqrt = id`, `sin = cos = 0`
pointwise. -/
def extW : MathExt :=
  { pi := 0, sqrt := fun q => q, sin := fun _ => 0, cos := fun _ => 0 }

/-- Concrete all-zero random stream used by witnesses. -/
def rzero : ℕ → ℚ := fun _ => 0

/-- Concrete `emit` call used by witnesses. -/
def callW : EmitCall := { count := 1, energy := 0, rand := rzero }

theorem capacity_invariant_witness :
    (((ParticleSystem.new 1).emitSeq extW [callW]).emit extW callW.count callW.energy callW.rand).particlePool
      = ((ParticleSystem.new 1).emitSeq extW [callW]).particlePool := by
  apply (capacity_invariant extW 1 [callW]).2.1 callW
  have hpool : ((ParticleSystem.new 1).emitSeq extW [callW]).particlePool
      = ParticleSystem.emitLoop extW (ParticleSystem.new 1) 0 rzero 1 0
          (ParticleSystem.new 1).particlePool := by
    show (ParticleSystem.emit extW (ParticleSystem.new 1) 1 0 rzero).particlePool = _
    rw [emit_pool_eq]
    norm_num [ParticleSystem.new]
  have hcnt : countActive ((ParticleSystem.new 1).emitSeq extW [callW]).particlePool = 1 := by
    rw [hpool, emitLoop_countActive]
    have h0 : countActive (ParticleSystem.new 1).particlePool = 0 := by decide
    have h1 : (ParticleSystem.new 1).particlePool.length = 1 := by decide
    rw [h0, h1]
    omega
  apply all_active_of_countActive_eq_length
  rw [hcnt, emitSeq_pool_length]
  simp [ParticleSystem.new]

/-! ### Per-particle lifetime trajectory -/

theorem particle_update_inactive (p : Particle) (w h dt : ℚ)
    (hact : p.active = false) : p.update w h dt = p := by
  simp [Particle.update, hact]

theorem particle_updateN_inactive (p : Particle) (w h dt : ℚ) (k : ℕ)
    (hact : p.active = false) : p.updateN w h dt k = p := by
  induction k with
  | zero => rfl
  | succ m ih =>
    show (p.update w h dt).updateN w h dt m = p
    rw [particle_update_inactive p w h dt hact]
    exact ih

theorem particle_updateN_add (w h dt : ℚ) (a b : ℕ) :
    ∀ p : Particle, p.updateN w h dt (a + b) = (p.updateN w h dt a).updateN w h dt b := by
  induction a with
  | zero => intro p; rw [Nat.zero_add]; rfl
  | succ m ih =>
    intro p
    have hshape : m + 1 + b = (m + b) + 1 := by omega
    rw [hshape]
    show (p.update w h dt).updateN w h dt (m + b) = _
    exact ih (p.update w h dt)

theorem particle_updateN_succ (p : Particle) (w h dt : ℚ) (k : ℕ) :
    p.updateN w h dt (k + 1) = (p.updateN w h dt k).update w h dt := by
  rw [particle_updateN_add w h dt k 1 p]
  rfl

theorem particle_update_active_life (p : Particle) (w h : ℚ)
    (hact : p.active = true) :
    (p.update w h 1).life = p.life - 1/100
    ∧ ((p.update w h 1).active = true ↔ 1/100 < p.life) := by
  constructor
  · simp [Particle.update, hact]
  · simp only [Particle.update, hact]
    norm_num

theorem life_trajectory (w h : ℚ) (p : Particle) (hact : p.active = true)
    (hL : 0 < p.life) (k : ℕ) :
    (p.updateN w h 1 k).life = p.life - (min k (⌈(100:ℚ) * p.life⌉.toNat) : ℕ) / 100
    ∧ ((p.updateN w h 1 k).active = true ↔ k < ⌈(100:ℚ) * p.life⌉.toNat) := by
  set k0 := (⌈(100:ℚ) * p.life⌉).toNat with hk0
  have hk0pos : 0 < k0 := by
    rw [hk0]
    have : (0:ℤ) < ⌈(100:ℚ) * p.life⌉ := Int.ceil_pos.2 (by linarith)
    omega
  have hk0bound : ∀ m : ℕ, m < k0 ↔ (m : ℚ) < 100 * p.life := by
    intro m
    rw [hk0, Int.lt_toNat, Int.lt_ceil]
    constructor
    · intro hc; exact_mod_cast hc
    · intro hc; exact_mod_cast hc
  induction k with
  | zero =>
    constructor
    · simp [Particle.updateN]
    · simpa [Particle.updateN] using ⟨fun _ => hk0pos, fun _ => hact⟩
  | succ m ih =>
    obtain ⟨ihlife, ihact⟩ := ih
    have hstep := particle_updateN_succ p w h 1 m
    by_cases hmk : m < k0
    · have hactm : (p.updateN w h 1 m).active = true := ihact.2 hmk
      have hlifem : (p.updateN w h 1 m).life = p.life - (m : ℚ) / 100 := by
        rw [ihlife, Nat.min_eq_left (Nat.le_of_lt hmk)]
      obtain ⟨hlife1, hact1⟩ := particle_update_active_life (p.updateN w h 1 m) w h hactm
      constructor
      · rw [hstep, hlife1, hlifem]
        rw [Nat.min_eq_left (by omega : m + 1 ≤ k0)]
        push_cast
        ring
      · rw [hstep, hact1, hlifem]
        rw [hk0bound (m + 1)]
        push_cast
        constructor
        · intro hc; linarith
        · intro hc; linarith
    · have hactm : (p.updateN w h 1 m).active = false := by
        cases hcase : (p.updateN w h 1 m).active with
        | false => rfl
        | true => exact absurd (ihact.1 hcase) hmk
      have hsame : p.updateN w h 1 (m + 1) = p.updateN w h 1 m := by
        rw [hstep, particle_update_inactive _ w h 1 hactm]
      constructor
      · rw [hsame, ihlife, Nat.min_eq_right (by omega), Nat.min_eq_right (by omega)]
      · rw [hsame, hactm]
        simp only [Bool.false_eq_true, false_iff]
        omega

/-- Claim C2 (amended): for a particle spawned via `init` with
`maxLife = L > 0`, after `k` calls to the per-frame advance with
`deltaTime = 1` and no force applied, `life = L - 0.01 * min k k0` where
`k0 = ⌈100 L⌉` is the first call at which life reaches ≤ 0 (the code does
not clamp `life` at 0: on death it freezes at a possibly negative value);
`active` is true exactly while `k < k0`; and once inactive, further advance
calls change nothing. -/
theorem conservation_of_life (q : Particle) (pi x y vx vy size hue r1 r2 w h L : ℚ)
    (hL : 0 < L) (k : ℕ) :
    ((q.init pi x y vx vy size L hue r1 r2).updateN w h 1 k).life
        = L - ((min k (⌈(100:ℚ) * L⌉.toNat) : ℕ) : ℚ) / 100
    ∧ (((q.init pi x y vx vy size L hue r1 r2).updateN w h 1 k).active = true
        ↔ k < ⌈(100:ℚ) * L⌉.toNat)
    ∧ (⌈(100:ℚ) * L⌉.toNat ≤ k →
        (q.init pi x y vx vy size L hue r1 r2).updateN w h 1 k
          = (q.init pi x y vx vy size L hue r1 r2).updateN w h 1 (⌈(100:ℚ) * L⌉.toNat)) := by
  have hlife : (q.init pi x y vx vy size L hue r1 r2).life = L := rfl
  have hact : (q.init pi x y vx vy size L hue r1 r2).active = true := rfl
  have htraj := life_trajectory w h (q.init pi x y vx vy size L hue r1 r2) hact
    (by rw [hlife]; exact hL)
  rw [hlife] at htraj
  refine ⟨(htraj k).1, (htraj k).2, ?_⟩
  intro hge
  set k0 := (⌈(100:ℚ) * L⌉).toNat with hk0
  have hdead : ((q.init pi x y vx vy size L hue r1 r2).updateN w h 1 k0).active = false := by
    cases hcase : ((q.init pi x y vx vy size L hue r1 r2).updateN w h 1 k0).active with
    | false => rfl
    | true =>
      have := (htraj k0).2.1 hcase
      omega
  have hsplit : k = k0 + (k - k0) := by omega
  rw [hsplit, particle_updateN_add w h 1 k0 (k - k0)]
  exact particle_updateN_inactive _ w h 1 (k - k0) hdead

theorem conservation_of_life_witness :
    (0:ℚ) < 2
    ∧ (((Particle.new.init 0 0 0 0 0 2 2 0 0 0).updateN 0 0 1 3).life
        = 2 - ((min 3 (⌈(100:ℚ) * 2⌉.toNat) : ℕ) : ℚ) / 100
      ∧ (((Particle.new.init 0 0 0 0 0 2 2 0 0 0).updateN 0 0 1 3).active = true
          ↔ 3 < ⌈(100:ℚ) * 2⌉.toNat)) := by
  refine ⟨by norm_num, ?_⟩
  have h := conservation_of_life Particle.new 0 0 0 0 0 2 0 0 0 0 0 2 (by norm_num) 3
  exact ⟨h.1, h.2.1⟩

/-- Claim C2, counterexample to the claim as frozen: the code does not clamp
`life` at 0.  A particle spawned with `maxLife = 1/200` has, after one
advance with `deltaTime = 1`, `life = -1/200`, not
`max 0 (1/200 - 0.01 * 1) = 0`. -/
theorem conservation_of_life_cex :
    ((Particle.new.init 0 0 0 0 0 2 (1/200) 0 0 0).updateN 0 0 1 1).life
      ≠ max 0 ((1/200 : ℚ) - (1/100) * 1) := by
  have hval : ((Particle.new.init 0 0 0 0 0 2 (1/200) 0 0 0).updateN 0 0 1 1).life
      = -(1/200) := by
    show ((Particle.new.init 0 0 0 0 0 2 (1/200) 0 0 0).update 0 0 1).life = -(1/200)
    simp [Particle.update, Particle.init, Particle.new]
    norm_num
  rw [hval]
  norm_num

/-! ### Frame-step lemmas: the per-frame pipeline never touches `life` or
`active` outside `Particle.update` -/

theorem applyForce_fields (p : Particle) (fx fy : ℚ) :
    (p.applyForce fx fy).life = p.life ∧ (p.applyForce fx fy).active = p.active
    ∧ (p.applyForce fx fy).maxLife = p.maxLife := by
  simp [Particle.applyForce]

theorem applyMagnetism_fields (ext : MathExt) (s : ParticleSystem) (p : Particle) :
    (ParticleSystem.applyMagnetism ext s p).life = p.life
    ∧ (ParticleSystem.applyMagnetism ext s p).active = p.active := by
  unfold ParticleSystem.applyMagnetism
  dsimp only
  split_ifs <;> simp [Particle.applyForce]

theorem applyOrbital_fields (ext : MathExt) (s : ParticleSystem) (p : Particle) :
    (ParticleSystem.applyOrbital ext s p).life = p.life
    ∧ (ParticleSystem.applyOrbital ext s p).active = p.active := by
  unfold ParticleSystem.applyOrbital
  dsimp only
  split_ifs <;> simp [Particle.applyForce]

theorem applyMode_fields (ext : MathExt) (s : ParticleSystem) (p : Particle) :
    (ParticleSystem.applyMode ext s p).life = p.life
    ∧ (ParticleSystem.applyMode ext s p).active = p.active := by
  unfold ParticleSystem.applyMode
  split_ifs
  · simp [ParticleSystem.applyGravity, Particle.applyForce]
  · exact applyMagnetism_fields ext s p
  · simp [ParticleSystem.applyTurbulence, Particle.applyForce]
  · exact applyOrbital_fields ext s p
  · exact ⟨rfl, rfl⟩

theorem applyAudioBands_fields (ab : Option (List ℚ)) (p : Particle) :
    (ParticleSystem.applyAudioBands ab p).life = p.life
    ∧ (ParticleSystem.applyAudioBands ab p).active = p.active := by
  unfold ParticleSystem.applyAudioBands
  cases ab with
  | none => exact ⟨rfl, rfl⟩
  | some bands =>
    dsimp only
    split_ifs <;> simp

theorem bounce_fields (p : Particle) (w h d : ℚ) :
    (p.bounce w h d).life = p.life ∧ (p.bounce w h d).active = p.active := by
  unfold Particle.bounce
  dsimp only
  split_ifs <;> simp

theorem wrap_fields (p : Particle) (w h : ℚ) :
    (p.wrap w h).life = p.life ∧ (p.wrap w h).active = p.active := by
  unfold Particle.wrap
  dsimp only
  split_ifs <;> simp

theorem frameStep_inactive (ext : MathExt) (s : ParticleSystem) (dt : ℚ)
    (ab : Option (List ℚ)) (p : Particle) (hact : p.active = false) :
    ParticleSystem.frameStep ext s dt ab p = p := by
  simp [ParticleSystem.frameStep, hact]

theorem frameStep_life_active (ext : MathExt) (s : ParticleSystem)
    (ab : Option (List ℚ)) (p : Particle) (hact : p.active = true) :
    (ParticleSystem.frameStep ext s 1 ab p).life = p.life - 1/100
    ∧ ((ParticleSystem.frameStep ext s 1 ab p).active = true ↔ 1/100 < p.life) := by
  unfold ParticleSystem.frameStep
  rw [hact]
  simp only [Bool.true_eq_false, if_false]
  set p1 := ParticleSystem.applyMode ext s p with hp1
  set p2 := ParticleSystem.applyAudioBands ab p1 with hp2
  set p3 : Particle := { p2 with vx := p2.vx * s.physics.damping, vy := p2.vy * s.physics.damping } with hp3
  have h1 := applyMode_fields ext s p
  have h2 := applyAudioBands_fields ab p1
  have h3life : p3.life = p.life := by rw [hp3]; show p2.life = p.life; rw [h2.1, h1.1]
  have h3act : p3.active = true := by rw [hp3]; show p2.active = true; rw [h2.2, h1.2, hact]
  have h4 := particle_update_active_life p3 s.width s.height h3act
  set p4 := p3.update s.width s.height 1 with hp4
  have hbl := bounce_fields p4 s.width s.height (4/5)
  have hwl := wrap_fields p4 s.width s.height
  constructor
  · split_ifs with hb hw
    · rw [hbl.1, h4.1, h3life]
    · rw [hwl.1, h4.1, h3life]
    · rw [h4.1, h3life]
  · split_ifs with hb hw
    · rw [hbl.2, h4.2, h3life]
    · rw [hwl.2, h4.2, h3life]
    · rw [h4.2, h3life]

/-! ### Update-level lemmas -/

theorem update_particlePool (ext : MathExt) (s : ParticleSystem) (dt : ℚ)
    (ab : Option (List ℚ)) :
    (ParticleSystem.update ext s dt ab).particlePool
      = s.particlePool.map
          (ParticleSystem.frameStep ext { s with time := s.time + 1 } dt ab) := rfl

theorem update_physics (ext : MathExt) (s : ParticleSystem) (dt : ℚ)
    (ab : Option (List ℚ)) :
    (ParticleSystem.update ext s dt ab).physics = s.physics := rfl

theorem update_pool_length (ext : MathExt) (s : ParticleSystem) (dt : ℚ)
    (ab : Option (List ℚ)) :
    (ParticleSystem.update ext s dt ab).particlePool.length
      = s.particlePool.length := by
  rw [update_particlePool, List.length_map]

theorem update_countActive (ext : MathExt) (s : ParticleSystem)
    (ab : Option (List ℚ))
    (h : ∀ p ∈ s.particlePool, p.active = true → 1/100 < p.life) :
    countActive (ParticleSystem.update ext s 1 ab).particlePool
      = countActive s.particlePool := by
  rw [update_particlePool]
  apply countActive_map_pointwise
  intro p hp
  cases hact : p.active with
  | false => rw [frameStep_inactive _ _ _ _ p hact, hact]
  | true =>
    exact (frameStep_life_active ext { s with time := s.time + 1 } ab p
      hact).2.2 (h p hp hact)

theorem updateN_countActive (ext : MathExt) (ab : Option (List ℚ)) :
    ∀ (n : ℕ) (s : ParticleSystem),
      (∀ p ∈ s.particlePool, p.active = true → (n : ℚ)/100 < p.life) →
      countActive (ParticleSystem.updateN ext s 1 ab n).particlePool
        = countActive s.particlePool := by
  intro n
  induction n with
  | zero => intro s _; rfl
  | succ m ih =>
    intro s h
    have hinv : ∀ p ∈ (ParticleSystem.update ext s 1 ab).particlePool,
        p.active = true → (m : ℚ)/100 < p.life := by
      intro p hp hact
      rw [update_particlePool] at hp
      obtain ⟨q, hq, hfq⟩ := List.mem_map.1 hp
      cases hqact : q.active with
      | false =>
        rw [frameStep_inactive _ _ _ _ q hqact] at hfq
        rw [← hfq] at hact
        rw [hact] at hqact
        exact absurd hqact (by simp)
      | true =>
        have hlife := (frameStep_life_active ext
          { s with time := s.time + 1 } ab q hqact).1
        have hql : (m + 1 : ℚ)/100 < q.life := by
          have := h q hq hqact
          push_cast at this ⊢
          linarith
        rw [← hfq, hlife]
        linarith
    have hstep : ParticleSystem.updateN ext s 1 ab (m + 1)
        = ParticleSystem.updateN ext (ParticleSystem.update ext s 1 ab) 1 ab m := rfl
    rw [hstep, ih _ hinv]
    apply update_countActive
    intro p hp hact
    have := h p hp hact
    have hm : (1:ℚ)/100 ≤ ((m:ℚ) + 1)/100 := by
      have : (0:ℚ) ≤ (m:ℚ) := Nat.cast_nonneg m
      linarith
    push_cast at this
    linarith

theorem updateN_active_getD (ext : MathExt) (ab : Option (List ℚ)) :
    ∀ (n : ℕ) (s : ParticleSystem) (i : ℕ),
      (s.particlePool.getD i Particle.new).active = true →
      (n : ℚ)/100 < (s.particlePool.getD i Particle.new).life →
      ((ParticleSystem.updateN ext s 1 ab n).particlePool.getD i Particle.new).active = true := by
  intro n
  induction n with
  | zero => intro s i hact _; exact hact
  | succ m ih =>
    intro s i hact hlife
    have hi : i < s.particlePool.length := by
      by_contra hge
      rw [getD_active_false_of_ge s.particlePool i (Nat.le_of_not_lt hge)] at hact
      simp at hact
    have hm0 : (0:ℚ) ≤ (m : ℚ) := Nat.cast_nonneg m
    have hstep : ParticleSystem.updateN ext s 1 ab (m + 1)
        = ParticleSystem.updateN ext (ParticleSystem.update ext s 1 ab) 1 ab m := rfl
    rw [hstep]
    apply ih
    · rw [update_particlePool, getD_map_of_lt _ _ i hi]
      apply (frameStep_life_active ext { s with time := s.time + 1 } ab _ hact).2.2
      push_cast at hlife
      linarith
    · rw [update_particlePool, getD_map_of_lt _ _ i hi]
      rw [(frameStep_life_active ext { s with time := s.time + 1 } ab _ hact).1]
      push_cast at hlife ⊢
      linarith

theorem emit5_count (ext : MathExt) (rand : ℕ → ℚ) :
    countActive ((ParticleSystem.new 10).emit ext 5 0 rand).particlePool = 5 := by
  rw [emit_pool_eq]
  have hfloor : (⌊(5:ℚ) * (1 + 0 * (ParticleSystem.new 10).audioReactive.emissionMultiplier)⌋).toNat = 5 := by
    have h1 : (ParticleSystem.new 10).audioReactive.emissionMultiplier = 1 := rfl
    rw [h1]
    have h2 : (⌊(5:ℚ) * (1 + 0 * 1)⌋ : ℤ) = 5 := by norm_num
    rw [h2]
    rfl
  rw [hfloor, emitLoop_countActive]
  have h0 : countActive (ParticleSystem.new 10).particlePool = 0 := by decide
  have h1 : (ParticleSystem.new 10).particlePool.length = 10 := by decide
  rw [h0, h1]
  omega

theorem emit5_life_bound (ext : MathExt) (rand : ℕ → ℚ) (hr : ∀ k, 0 ≤ rand k) :
    ∀ p ∈ ((ParticleSystem.new 10).emit ext 5 0 rand).particlePool,
      p.active = true → (250 : ℚ)/100 < p.life := by
  rw [emit_pool_eq]
  have hspawn : ∀ (k : ℕ) (q : Particle),
      (250 : ℚ)/100 < (ParticleSystem.spawnParticle ext (ParticleSystem.new 10) 0 rand k q).life := by
    intro k q
    have hlife : (ParticleSystem.spawnParticle ext (ParticleSystem.new 10) 0 rand k q).life
        = 100 + rand (k+5) * (200 - 100) := rfl
    rw [hlife]
    have h1 := hr (k+5)
    have h2 : 0 ≤ rand (k+5) * (200 - 100) := by
      apply mul_nonneg h1
      norm_num
    linarith
  have hbase : ∀ p ∈ (ParticleSystem.new 10).particlePool, p.active = true →
      (250 : ℚ)/100 < p.life := by
    intro p hp hact
    have hrep : p ∈ List.replicate 10 Particle.new := hp
    have hpn : p = Particle.new := List.eq_of_mem_replicate hrep
    rw [hpn] at hact
    simp [Particle.new] at hact
  exact emitLoop_preserves_pred ext (ParticleSystem.new 10) 0 rand
    (fun p => (250 : ℚ)/100 < p.life) hspawn _ 0 _ hbase

/-- Claim C3 (amended): with an engine of capacity 10, one call `emit(5, 0)`
yields exactly 5 active particles; but after 250 calls to `update(1, null)`
all 5 particles are STILL ACTIVE, because with the default lifetime range
[100, 200] and a decay of 0.01 per unit time a particle needs at least
10000 updates to expire (the spec's scenario expects all 5 inactive, which
the code contradicts). -/
theorem end_to_end (ext : MathExt) (rand : ℕ → ℚ) (hr : ∀ k, 0 ≤ rand k) :
    countActive ((ParticleSystem.new 10).emit ext 5 0 rand).particlePool = 5
    ∧ countActive (ParticleSystem.updateN ext
        ((ParticleSystem.new 10).emit ext 5 0 rand) 1 none 250).particlePool = 5 := by
  refine ⟨emit5_count ext rand, ?_⟩
  have hinv : ∀ p ∈ ((ParticleSystem.new 10).emit ext 5 0 rand).particlePool,
      p.active = true → ((250 : ℕ) : ℚ)/100 < p.life := by
    intro p hp hact
    exact_mod_cast emit5_life_bound ext rand hr p hp hact
  rw [updateN_countActive ext none 250 _ hinv]
  exact emit5_count ext rand

theorem end_to_end_witness :
    (∀ k : ℕ, (0:ℚ) ≤ rzero k)
    ∧ (countActive ((ParticleSystem.new 10).emit extW 5 0 rzero).particlePool = 5
      ∧ countActive (ParticleSystem.updateN extW
          ((ParticleSystem.new 10).emit extW 5 0 rzero) 1 none 250).particlePool = 5) :=
  ⟨fun _ => le_refl 0, end_to_end extW rzero (fun _ => le_refl 0)⟩

/-- Claim C3, counterexample to the claim as frozen: in the concrete
scenario (capacity 10, one `emit(5, 0)`, then 250 calls to
`update(1, null)`) it is NOT the case that all particles are inactive —
the pool still holds active particles, since lives start at ≥ 100 and only
2.5 life has decayed. -/
theorem end_to_end_cex :
    ¬ (∀ p ∈ (ParticleSystem.updateN extW
        ((ParticleSystem.new 10).emit extW 5 0 rzero) 1 none 250).particlePool,
        p.active = false) := by
  intro hall
  have hinv : ∀ p ∈ ((ParticleSystem.new 10).emit extW 5 0 rzero).particlePool,
      p.active = true → ((250 : ℕ) : ℚ)/100 < p.life := by
    intro p hp hact
    exact_mod_cast emit5_life_bound extW rzero (fun _ => le_refl 0) p hp hact
  have h5 : countActive (ParticleSystem.updateN extW
      ((ParticleSystem.new 10).emit extW 5 0 rzero) 1 none 250).particlePool = 5 := by
    rw [updateN_countActive extW none 250 _ hinv]
    exact emit5_count extW rzero
  have h0 : countActive (ParticleSystem.updateN extW
      ((ParticleSystem.new 10).emit extW 5 0 rzero) 1 none 250).particlePool = 0 := by
    unfold countActive
    rw [List.filter_eq_nil_iff.2 ?_]
    · rfl
    · intro a ha
      simp [hall a ha]
  rw [h5] at h0
  exact absurd h0 (by norm_num)

theorem wrap_velocity (p : Particle) (w h : ℚ) :
    (p.wrap w h).vx = p.vx ∧ (p.wrap w h).vy = p.vy := by
  unfold Particle.wrap
  dsimp only
  split_ifs <;> simp

theorem frameStep_gravity_vy (ext : MathExt) (s : ParticleSystem) (p : Particle)
    (hmode : s.physics.mode = "gravity") (hb : s.physics.bounceEnabled = false)
    (hact : p.active = true) (hvy : p.vy = 0) (hay : p.ay = 0) :
    (ParticleSystem.frameStep ext s 1 none p).vy = s.physics.gravityY / p.mass := by
  unfold ParticleSystem.frameStep
  rw [hact]
  simp only [Bool.true_eq_false, if_false]
  have hp1 : ParticleSystem.applyMode ext s p
      = p.applyForce s.physics.gravityX s.physics.gravityY := by
    unfold ParticleSystem.applyMode ParticleSystem.applyGravity
    rw [if_pos hmode]
  rw [hp1]
  have hp2 : ∀ q : Particle, ParticleSystem.applyAudioBands none q = q := fun q => rfl
  rw [hp2]
  set p1 := p.applyForce s.physics.gravityX s.physics.gravityY with hp1d
  have h1vy : p1.vy = 0 := hvy
  have h1ay : p1.ay = s.physics.gravityY / p.mass := by
    rw [hp1d]
    show p.ay + s.physics.gravityY / p.mass = s.physics.gravityY / p.mass
    rw [hay, zero_add]
  have h1act : p1.active = true := hact
  set p3 : Particle := { p1 with vx := p1.vx * s.physics.damping, vy := p1.vy * s.physics.damping } with hp3
  have h3vy : p3.vy = 0 := by rw [hp3]; show p1.vy * s.physics.damping = 0; rw [h1vy, zero_mul]
  have h3ay : p3.ay = s.physics.gravityY / p.mass := h1ay
  have h3act : p3.active = true := h1act
  have h4vy : (p3.update s.width s.height 1).vy = s.physics.gravityY / p.mass := by
    unfold Particle.update
    rw [h3act]
    simp only [Bool.true_eq_false, if_false]
    show p3.vy + p3.ay * 1 = s.physics.gravityY / p.mass
    rw [h3vy, h3ay, zero_add, mul_one]
  rw [hb]
  simp only [Bool.false_eq_true, if_false]
  split_ifs with hw
  · rw [(wrap_velocity _ s.width s.height).2, h4vy]
  · exact h4vy

/-- Claim C4 (amended): with `physics.mode = gravity` and bounce disabled,
every active particle at rest (zero velocity and an empty acceleration
accumulator) with nonzero mass accrues `vy = gravityY / mass` after one
update with `deltaTime = 1`, independent of its position.  Because
`applyForce` divides by `mass = size * 0.1`, the accrued `vy` equals the
claim's `0.1` only for unit-mass (size 10) particles, not in general. -/
theorem gravity_accrual (ext : MathExt) (s : ParticleSystem) (i : ℕ)
    (hmode : s.physics.mode = "gravity")
    (hb : s.physics.bounceEnabled = false)
    (hact : (s.particlePool.getD i Particle.new).active = true)
    (hvy : (s.particlePool.getD i Particle.new).vy = 0)
    (hay : (s.particlePool.getD i Particle.new).ay = 0)
    (hm : (s.particlePool.getD i Particle.new).mass ≠ 0) :
    ((ParticleSystem.update ext s 1 none).particlePool.getD i Particle.new).vy
      = s.physics.gravityY / (s.particlePool.getD i Particle.new).mass := by
  have hi : i < s.particlePool.length := by
    by_contra hge
    rw [getD_active_false_of_ge s.particlePool i (Nat.le_of_not_lt hge)] at hact
    simp at hact
  rw [update_particlePool, getD_map_of_lt _ _ i hi]
  exact frameStep_gravity_vy ext { s with time := s.time + 1 }
    (s.particlePool.getD i Particle.new) hmode hb hact hvy hay

/-- Concrete engine used by the gravity claims: capacity 1, one particle
emitted with the all-zero random stream and the `extW` oracle, so it spawns
at rest (`cos = sin = 0`) with size 2, hence mass 1/5. -/
def sysW : ParticleSystem := (ParticleSystem.new 1).emit extW 1 0 rzero

theorem sysW_pool : sysW.particlePool
    = [ParticleSystem.spawnParticle extW (ParticleSystem.new 1) 0 rzero 0 Particle.new] := by
  show (ParticleSystem.emit extW (ParticleSystem.new 1) 1 0 rzero).particlePool = _
  rw [emit_pool_eq]
  have h1 : (ParticleSystem.new 1).audioReactive.emissionMultiplier = 1 := rfl
  rw [h1]
  have h2 : (⌊(1:ℚ) * (1 + 0 * 1)⌋ : ℤ) = 1 := by norm_num
  rw [h2]
  rfl

theorem sysW_p0 :
    (sysW.particlePool.getD 0 Particle.new).active = true
    ∧ (sysW.particlePool.getD 0 Particle.new).vx = 0
    ∧ (sysW.particlePool.getD 0 Particle.new).vy = 0
    ∧ (sysW.particlePool.getD 0 Particle.new).ay = 0
    ∧ (sysW.particlePool.getD 0 Particle.new).mass = 1/5 := by
  rw [sysW_pool]
  simp only [List.getD_cons_zero]
  refine ⟨rfl, ?_, ?_, rfl, ?_⟩
  · show extW.cos (rzero 2 * extW.pi * 2) * _ * _ = 0
    simp [extW]
  · show extW.sin (rzero 2 * extW.pi * 2) * _ * _ = 0
    simp [extW]
  · show (ParticleSystem.spawnParticle extW (ParticleSystem.new 1) 0 rzero 0 Particle.new).size * (1/10) = 1/5
    show ((2:ℚ) + rzero 4 * (6 - 2)) * (1 + 0 * 1) * (1/10) = 1/5
    norm_num [rzero]

theorem gravity_accrual_witness :
    sysW.physics.mode = "gravity"
    ∧ ((ParticleSystem.update extW sysW 1 none).particlePool.getD 0 Particle.new).vy
        = sysW.physics.gravityY / (sysW.particlePool.getD 0 Particle.new).mass :=
  ⟨rfl, gravity_accrual extW sysW 0 rfl rfl sysW_p0.1 sysW_p0.2.2.1 sysW_p0.2.2.2.1
    (by rw [sysW_p0.2.2.2.2]; norm_num)⟩

/-- Claim C4, counterexample to the claim as frozen: in gravity mode with
`gravityY = 0.1` (the defaults), the emitted size-2 particle of `sysW` is
at rest, yet after one `update(1, null)` its `vy` is `0.5`, not `≈ 0.1`:
`applyForce` divides the gravity force by the particle mass `0.2`. -/
theorem gravity_accrual_cex :
    sysW.physics.mode = "gravity"
    ∧ sysW.physics.gravityY = 1/10
    ∧ (sysW.particlePool.getD 0 Particle.new).vx = 0
    ∧ (sysW.particlePool.getD 0 Particle.new).vy = 0
    ∧ ((ParticleSystem.update extW sysW 1 none).particlePool.getD 0 Particle.new).vy = 1/2
    ∧ ((1:ℚ)/2 ≠ 1/10) := by
  refine ⟨rfl, rfl, sysW_p0.2.1, sysW_p0.2.2.1, ?_, by norm_num⟩
  have hi : (0:ℕ) < sysW.particlePool.length := by
    rw [sysW_pool]
    simp
  rw [update_particlePool, getD_map_of_lt _ _ 0 hi]
  rw [frameStep_gravity_vy extW { sysW with time := sysW.time + 1 } _ rfl rfl
    sysW_p0.1 sysW_p0.2.2.1 sysW_p0.2.2.2.1]
  rw [sysW_p0.2.2.2.2]
  show (1:ℚ)/10 / (1/5) = 1/2
  norm_num

theorem getD_range_map (f : ℕ → Particle) (m i : ℕ) (d : Particle)
    (hi : i < m) : ((List.range m).map f).getD i d = f i := by
  rw [List.getD_eq_getElem?_getD, List.getElem?_map, List.getElem?_range hi]
  rfl

theorem countActive_replicate_new (cap : ℕ) :
    countActive (List.replicate cap Particle.new) = 0 := by
  unfold countActive
  rw [List.filter_replicate_of_neg (by simp [Particle.new])]
  rfl

theorem emit_fresh_count (ext : MathExt) (rand : ℕ → ℚ) (cap cnt : ℕ) :
    countActive ((ParticleSystem.new cap).emit ext (cnt : ℚ) 0 rand).particlePool
      = min cnt cap := by
  rw [emit_pool_eq]
  have h1 : (ParticleSystem.new cap).audioReactive.emissionMultiplier = 1 := rfl
  rw [h1]
  have h2 : (⌊(cnt:ℚ) * (1 + 0 * 1)⌋ : ℤ).toNat = cnt := by
    have : ((1:ℚ) + 0 * 1) = 1 := by norm_num
    rw [this, mul_one, Int.floor_natCast]
    exact Int.toNat_natCast cnt
  rw [h2]
  have h3 : (ParticleSystem.new cap).particlePool = List.replicate cap Particle.new := rfl
  rw [h3, emitLoop_countActive, countActive_replicate_new, List.length_replicate]
  omega

/-- Claim C5: for every engine state and every `maxCount`, if the active
count is ≤ `maxCount` the LOD sampler returns all active particles
unmodified; otherwise it returns exactly `maxCount` particles, namely the
active particles at indices `⌊i * step⌋` with
`step = activeCount / maxCount` for `i ∈ [0, maxCount)`, those indices are
in range, and they are monotonically non-decreasing. -/
theorem lod_sampling (s : ParticleSystem) (maxCount : ℕ) :
    (s.getActiveParticles.length ≤ maxCount →
      s.getActiveParticlesLOD maxCount = s.getActiveParticles)
    ∧ (maxCount < s.getActiveParticles.length →
        (s.getActiveParticlesLOD maxCount).length = maxCount
        ∧ (∀ i : ℕ, i < maxCount →
            (s.getActiveParticlesLOD maxCount).getD i Particle.new
              = s.getActiveParticles.getD
                  (⌊(i : ℚ) * ((s.getActiveParticles.length : ℚ) / (maxCount : ℚ))⌋).toNat
                  Particle.new
            ∧ (⌊(i : ℚ) * ((s.getActiveParticles.length : ℚ) / (maxCount : ℚ))⌋).toNat
                < s.getActiveParticles.length)
        ∧ (∀ i j : ℕ, i ≤ j → j < maxCount →
            (⌊(i : ℚ) * ((s.getActiveParticles.length : ℚ) / (maxCount : ℚ))⌋).toNat
              ≤ (⌊(j : ℚ) * ((s.getActiveParticles.length : ℚ) / (maxCount : ℚ))⌋).toNat)) := by
  constructor
  · intro hle
    unfold ParticleSystem.getActiveParticlesLOD
    dsimp only
    rw [if_pos hle]
  · intro hgt
    have hmain : s.getActiveParticlesLOD maxCount
        = (List.range maxCount).map (fun (i : ℕ) =>
            s.getActiveParticles.getD
              (⌊(i : ℚ) * ((s.getActiveParticles.length : ℚ) / (maxCount : ℚ))⌋).toNat
              Particle.new) := by
      unfold ParticleSystem.getActiveParticlesLOD
      dsimp only
      rw [if_neg (not_le.2 hgt)]
    refine ⟨?_, ?_, ?_⟩
    · rw [hmain, List.length_map, List.length_range]
    · intro i hi
      constructor
      · rw [hmain, getD_range_map _ _ _ _ hi]
      · -- the sampled index is in range
        have hm : 0 < maxCount := Nat.pos_of_ne_zero (by omega)
        have hmq : (0:ℚ) < (maxCount : ℚ) := by exact_mod_cast hm
        have hnq : ((maxCount : ℚ)) < (s.getActiveParticles.length : ℚ) := by
          exact_mod_cast hgt
        have hstep : (0:ℚ) < (s.getActiveParticles.length : ℚ) / (maxCount : ℚ) :=
          div_pos (by linarith) hmq
        have hlt : (i : ℚ) * ((s.getActiveParticles.length : ℚ) / (maxCount : ℚ))
            < (s.getActiveParticles.length : ℚ) := by
          have him : (i : ℚ) < (maxCount : ℚ) := by exact_mod_cast hi
          have h1 : (i : ℚ) * ((s.getActiveParticles.length : ℚ) / (maxCount : ℚ))
              < (maxCount : ℚ) * ((s.getActiveParticles.length : ℚ) / (maxCount : ℚ)) :=
            mul_lt_mul_of_pos_right him hstep
          have h2 : (maxCount : ℚ) * ((s.getActiveParticles.length : ℚ) / (maxCount : ℚ))
              = (s.getActiveParticles.length : ℚ) := by
            field_simp
          linarith
        have hz : ⌊(i : ℚ) * ((s.getActiveParticles.length : ℚ) / (maxCount : ℚ))⌋
            < (s.getActiveParticles.length : ℤ) := by
          rw [Int.floor_lt]
          exact_mod_cast hlt
        omega
    · intro i j hij hj
      have hstep : (0:ℚ) ≤ (s.getActiveParticles.length : ℚ) / (maxCount : ℚ) := by
        apply div_nonneg <;> exact_mod_cast Nat.zero_le _
      have hle : (i : ℚ) * ((s.getActiveParticles.length : ℚ) / (maxCount : ℚ))
          ≤ (j : ℚ) * ((s.getActiveParticles.length : ℚ) / (maxCount : ℚ)) := by
        apply mul_le_mul_of_nonneg_right _ hstep
        exact_mod_cast hij
      have := Int.floor_le_floor hle
      omega

theorem lod_sampling_witness :
    2 < ((ParticleSystem.new 10).emit extW 3 0 rzero).getActiveParticles.length
    ∧ (((ParticleSystem.new 10).emit extW 3 0 rzero).getActiveParticlesLOD 2).length = 2 := by
  have hcnt : ((ParticleSystem.new 10).emit extW 3 0 rzero).getActiveParticles.length = 3 := by
    have hcast : ((3:ℕ):ℚ) = (3:ℚ) := by norm_num
    have h := emit_fresh_count extW rzero 10 3
    rw [hcast] at h
    show countActive ((ParticleSystem.new 10).emit extW 3 0 rzero).particlePool = 3
    rw [h]
    omega
  constructor
  · omega
  · exact ((lod_sampling ((ParticleSystem.new 10).emit extW 3 0 rzero) 2).2
      (by omega)).1

/-- Claim C6: after one boundary pass with the wrap policy, a particle with
`position.x = width + 5` (for a canvas with `width ≥ 0`) ends at
`position.x = 0`; with the bounce policy, a coordinate that exits
`[0, width]` or `[0, height]` is clamped to the boundary and the
corresponding velocity component is negated and scaled by the damping
factor. -/
theorem boundary_policies (p : Particle) (width height damping : ℚ)
    (hw : 0 ≤ width) (hh : 0 ≤ height) :
    (p.x = width + 5 → (p.wrap width height).x = 0)
    ∧ (p.x < 0 → (p.bounce width height damping).x = 0
        ∧ (p.bounce width height damping).vx = p.vx * (-damping))
    ∧ (width < p.x → (p.bounce width height damping).x = width
        ∧ (p.bounce width height damping).vx = p.vx * (-damping))
    ∧ (p.y < 0 → (p.bounce width height damping).y = 0
        ∧ (p.bounce width height damping).vy = p.vy * (-damping))
    ∧ (height < p.y → (p.bounce width height damping).y = height
        ∧ (p.bounce width height damping).vy = p.vy * (-damping)) := by
  refine ⟨?_, ?_, ?_, ?_, ?_⟩
  · intro hx
    unfold Particle.wrap
    dsimp only
    rw [hx]
    split_ifs <;> (try dsimp only at *) <;> first | rfl | linarith
  · intro hx
    unfold Particle.bounce
    dsimp only
    constructor <;> (split_ifs <;> (try dsimp only at *) <;> first | rfl | linarith)
  · intro hx
    unfold Particle.bounce
    dsimp only
    constructor <;> (split_ifs <;> (try dsimp only at *) <;> first | rfl | linarith)
  · intro hy
    unfold Particle.bounce
    dsimp only
    constructor <;> (split_ifs <;> (try dsimp only at *) <;> first | rfl | linarith)
  · intro hy
    unfold Particle.bounce
    dsimp only
    constructor <;> (split_ifs <;> (try dsimp only at *) <;> first | rfl | linarith)

/-- Particle at (15, 5), used as boundary-policy witness input. -/
def pW : Particle := { Particle.new with x := 15, y := 5 }

theorem boundary_policies_witness :
    (pW.x = 10 + 5 ∧ (pW.wrap 10 20).x = 0)
    ∧ ((10 : ℚ) < pW.x ∧ (pW.bounce 10 20 (1/2)).x = 10
        ∧ (pW.bounce 10 20 (1/2)).vx = pW.vx * (-(1/2))) := by
  have hx : pW.x = 10 + 5 := by
    show (15 : ℚ) = 10 + 5
    norm_num
  have hgt : (10 : ℚ) < pW.x := by
    show (10 : ℚ) < 15
    norm_num
  exact ⟨⟨hx, (boundary_policies pW 10 20 (1/2) (by norm_num) (by norm_num)).1 hx⟩,
    ⟨hgt, (boundary_policies pW 10 20 (1/2) (by norm_num) (by norm_num)).2.2.1 hgt⟩⟩

/-- Claim C7: if a particle's position coincides exactly with the magnetism
target (magnetism mode) or with the orbital center (orbital mode), the
distance is `sqrt 0 = 0`, the `dist > 0` guard fails, and the force term is
skipped: the particle is returned unchanged, so no division by zero occurs
and its acceleration receives no mode-force contribution. -/
theorem div_zero_guard (ext : MathExt) (hs : ext.sqrt 0 = 0)
    (s : ParticleSystem) :
    (∀ p : Particle, p.x = s.physics.magnetX → p.y = s.physics.magnetY →
      ParticleSystem.applyMagnetism ext s p = p)
    ∧ (∀ p : Particle, p.x = s.physics.orbitalCenterX * s.width →
        p.y = s.physics.orbitalCenterY * s.height →
        ParticleSystem.applyOrbital ext s p = p) := by
  constructor
  · intro p hx hy
    unfold ParticleSystem.applyMagnetism
    dsimp only
    rw [hx, hy]
    have h0 : (s.physics.magnetX - s.physics.magnetX) * (s.physics.magnetX - s.physics.magnetX)
        + (s.physics.magnetY - s.physics.magnetY) * (s.physics.magnetY - s.physics.magnetY)
        = 0 := by ring
    rw [h0, hs]
    simp
  · intro p hx hy
    unfold ParticleSystem.applyOrbital
    dsimp only
    rw [hx, hy]
    have h0 : (s.physics.orbitalCenterX * s.width - s.physics.orbitalCenterX * s.width)
          * (s.physics.orbitalCenterX * s.width - s.physics.orbitalCenterX * s.width)
        + (s.physics.orbitalCenterY * s.height - s.physics.orbitalCenterY * s.height)
          * (s.physics.orbitalCenterY * s.height - s.physics.orbitalCenterY * s.height)
        = 0 := by ring
    rw [h0, hs]
    simp

/-- Particle placed exactly at the default orbital center of a 1920x1080
canvas, used as a division-by-zero witness input. -/
def pOrb : Particle := { Particle.new with x := 960, y := 540 }

theorem div_zero_guard_witness :
    ParticleSystem.applyMagnetism extW (ParticleSystem.new 10) Particle.new = Particle.new
    ∧ ParticleSystem.applyOrbital extW (ParticleSystem.new 10) pOrb = pOrb := by
  have hx : pOrb.x = (ParticleSystem.new 10).physics.orbitalCenterX * (ParticleSystem.new 10).width := by
    show (960 : ℚ) = 1/2 * 1920
    norm_num
  have hy : pOrb.y = (ParticleSystem.new 10).physics.orbitalCenterY * (ParticleSystem.new 10).height := by
    show (540 : ℚ) = 1/2 * 1080
    norm_num
  exact ⟨(div_zero_guard extW rfl (ParticleSystem.new 10)).1 Particle.new rfl rfl,
    (div_zero_guard extW rfl (ParticleSystem.new 10)).2 pOrb hx hy⟩

/-- Claim C8: the audio-coupled adjustments (bass at index 1 added to `vy`,
treble at index 5 offset from 0.5 added to `vx`, mid band at index 3
scaling `size`) are applied during `update` exactly when the supplied
audio-band vector has 7 elements; for a null vector or any other length the
whole update is identical to the update with no audio vector, so only the
mode force applies. -/
theorem audio_vector_guard (ext : MathExt) (s : ParticleSystem) (dt : ℚ) :
    (∀ bands : List ℚ, bands.length ≠ 7 →
      ParticleSystem.update ext s dt (some bands) = ParticleSystem.update ext s dt none)
    ∧ (∀ (bands : List ℚ) (p : Particle), bands.length = 7 →
      ParticleSystem.applyAudioBands (some bands) p
        = { p with
            vy := p.vy + bands.getD 1 0 * (1/2)
            vx := p.vx + (bands.getD 5 0 - 1/2) * (3/10)
            size := p.size * (1 + bands.getD 3 0 * (1/5)) })
    ∧ (∀ p : Particle, ParticleSystem.applyAudioBands none p = p) := by
  refine ⟨?_, ?_, fun p => rfl⟩
  · intro bands hlen
    have hskip : ∀ q : Particle, ParticleSystem.applyAudioBands (some bands) q = q := by
      intro q
      unfold ParticleSystem.applyAudioBands
      dsimp only
      rw [if_neg hlen]
    have hfun : ParticleSystem.frameStep ext { s with time := s.time + 1 } dt (some bands)
        = ParticleSystem.frameStep ext { s with time := s.time + 1 } dt none := by
      funext p
      unfold ParticleSystem.frameStep
      simp only [hskip]
      have hnone : ∀ q : Particle, ParticleSystem.applyAudioBands none q = q := fun q => rfl
      simp only [hnone]
    show ParticleSystem.update ext s dt (some bands) = ParticleSystem.update ext s dt none
    unfold ParticleSystem.update
    dsimp only
    rw [hfun]
  · intro bands p hlen
    unfold ParticleSystem.applyAudioBands
    dsimp only
    rw [if_pos hlen]

theorem audio_vector_guard_witness :
    (([] : List ℚ).length ≠ 7)
    ∧ ParticleSystem.update extW (ParticleSystem.new 2) 1 (some [])
        = ParticleSystem.update extW (ParticleSystem.new 2) 1 none :=
  ⟨by decide, (audio_vector_guard extW (ParticleSystem.new 2) 1).1 [] (by decide)⟩

theorem jsMod_bounds (a : ℚ) :
    -360 < jsMod a 360 ∧ jsMod a 360 < 360 ∧ (0 ≤ a → 0 ≤ jsMod a 360) := by
  unfold jsMod jsTrunc
  have hdiv : a / 360 * 360 = a := div_mul_cancel₀ a (by norm_num)
  by_cases ha : 0 ≤ a / 360
  · rw [if_pos ha]
    have h1 : ((⌊a / 360⌋ : ℚ)) ≤ a / 360 := Int.floor_le _
    have h2 : a / 360 < ⌊a / 360⌋ + 1 := Int.lt_floor_add_one _
    have h1m : ((⌊a / 360⌋ : ℚ)) * 360 ≤ a / 360 * 360 :=
      mul_le_mul_of_nonneg_right h1 (by norm_num)
    have h2m : a / 360 * 360 < ((⌊a / 360⌋ : ℚ) + 1) * 360 :=
      mul_lt_mul_of_pos_right h2 (by norm_num)
    rw [hdiv] at h1m h2m
    refine ⟨by linarith, by linarith, fun _ => by linarith⟩
  · rw [if_neg ha]
    have h1 : a / 360 ≤ ((⌈a / 360⌉ : ℚ)) := Int.le_ceil _
    have h2 : ((⌈a / 360⌉ : ℚ)) < a / 360 + 1 := Int.ceil_lt_add_one _
    have h1m : a / 360 * 360 ≤ ((⌈a / 360⌉ : ℚ)) * 360 :=
      mul_le_mul_of_nonneg_right h1 (by norm_num)
    have h2m : ((⌈a / 360⌉ : ℚ)) * 360 < (a / 360 + 1) * 360 :=
      mul_lt_mul_of_pos_right h2 (by norm_num)
    rw [hdiv] at h1m
    have ha' : a < 0 := by
      by_contra hge
      exact ha (div_nonneg (le_of_not_lt hge) (by norm_num))
    have h2m' : ((⌈a / 360⌉ : ℚ)) * 360 < a + 360 := by
      have : (a / 360 + 1) * 360 = a / 360 * 360 + 360 := by ring
      rw [this, hdiv] at h2m
      exact h2m
    refine ⟨by linarith, by linarith, fun h0 => absurd h0 (not_le.2 ha')⟩

/-- Claim C9 (amended): every particle spawned by `emit` gets
`hue = (baseHue + uniform(-hueVariation/2, hueVariation/2) + hueShift) % 360`
with the JavaScript remainder, whose result lies in the open interval
(-360, 360) and has the sign of the dividend: it lies in [0, 360) when the
pre-remainder sum is nonnegative, but a negative sum (e.g. from a negative
`hueShift`) yields a negative hue, outside the conventional 0-360 range. -/
theorem spawn_hue (ext : MathExt) (s : ParticleSystem) (e : ℚ) (rand : ℕ → ℚ)
    (k : ℕ) (q : Particle) :
    (ParticleSystem.spawnParticle ext s e rand k q).hue
        = jsMod (s.emission.hue + (rand (k+6) - 1/2) * s.emission.hueVariation
            + s.audioReactive.hueShift) 360
    ∧ -360 < (ParticleSystem.spawnParticle ext s e rand k q).hue
    ∧ (ParticleSystem.spawnParticle ext s e rand k q).hue < 360
    ∧ (0 ≤ s.emission.hue + (rand (k+6) - 1/2) * s.emission.hueVariation
          + s.audioReactive.hueShift →
        0 ≤ (ParticleSystem.spawnParticle ext s e rand k q).hue) := by
  have hh : (ParticleSystem.spawnParticle ext s e rand k q).hue
      = jsMod (s.emission.hue + (rand (k+6) - 1/2) * s.emission.hueVariation
          + s.audioReactive.hueShift) 360 := rfl
  have hb := jsMod_bounds (s.emission.hue + (rand (k+6) - 1/2) * s.emission.hueVariation
    + s.audioReactive.hueShift)
  exact ⟨hh, by rw [hh]; exact hb.1, by rw [hh]; exact hb.2.1,
    fun h0 => by rw [hh]; exact hb.2.2 h0⟩

theorem spawn_hue_witness :
    (0 ≤ (ParticleSystem.new 10).emission.hue
        + (rzero 6 - 1/2) * (ParticleSystem.new 10).emission.hueVariation
        + (ParticleSystem.new 10).audioReactive.hueShift)
    ∧ 0 ≤ (ParticleSystem.spawnParticle extW (ParticleSystem.new 10) 0 rzero 0 Particle.new).hue := by
  have h0 : (0:ℚ) ≤ (ParticleSystem.new 10).emission.hue
      + (rzero 6 - 1/2) * (ParticleSystem.new 10).emission.hueVariation
      + (ParticleSystem.new 10).audioReactive.hueShift := by
    show (0:ℚ) ≤ 200 + (0 - 1/2) * 60 + 0
    norm_num
  exact ⟨h0, (spawn_hue extW (ParticleSystem.new 10) 0 rzero 0 Particle.new).2.2.2 h0⟩

/-- Engine whose emission config makes the spawned hue negative: base hue 0,
no hue variation, hue shift -30. -/
def sysNeg : ParticleSystem :=
  { ParticleSystem.new 10 with
    emission := { (ParticleSystem.new 10).emission with hue := 0, hueVariation := 0 }
    audioReactive := { (ParticleSystem.new 10).audioReactive with hueShift := -30 } }

/-- Claim C9, counterexample to the claim as frozen: with base hue 0, hue
variation 0 and `hueShift = -30`, the particle spawned by `emit` has
`hue = -30 % 360 = -30` (JavaScript remainder keeps the sign of the
dividend), which is NOT in the conventional range 0-360. -/
theorem spawn_hue_cex :
    ((sysNeg.emit extW 1 0 rzero).particlePool.getD 0 Particle.new).hue = -30
    ∧ ¬ (0 ≤ ((sysNeg.emit extW 1 0 rzero).particlePool.getD 0 Particle.new).hue) := by
  have hp0 : (sysNeg.emit extW 1 0 rzero).particlePool.getD 0 Particle.new
      = ParticleSystem.spawnParticle extW sysNeg 0 rzero 0 Particle.new := by
    rw [emit_pool_eq]
    have h1 : sysNeg.audioReactive.emissionMultiplier = 1 := rfl
    rw [h1]
    have h2 : (⌊(1:ℚ) * (1 + 0 * 1)⌋ : ℤ) = 1 := by norm_num
    rw [h2]
    rfl
  have hhue : (ParticleSystem.spawnParticle extW sysNeg 0 rzero 0 Particle.new).hue
      = jsMod (-30) 360 := by
    have hh := (spawn_hue extW sysNeg 0 rzero 0 Particle.new).1
    rw [hh]
    have : sysNeg.emission.hue + (rzero 6 - 1/2) * sysNeg.emission.hueVariation
        + sysNeg.audioReactive.hueShift = -30 := by
      show (0:ℚ) + (0 - 1/2) * 0 + -30 = -30
      norm_num
    rw [this]
  have hmod : jsMod (-30) 360 = -30 := by
    unfold jsMod jsTrunc
    have hneg : ¬ (0 ≤ (-30 : ℚ) / 360) := by norm_num
    rw [if_neg hneg]
    have hceil : (⌈(-30 : ℚ) / 360⌉ : ℤ) = 0 := by
      rw [Int.ceil_eq_zero_iff]
      constructor <;> norm_num
    rw [hceil]
    norm_num
  rw [hp0, hhue, hmod]
  norm_num

/-- Claim C10: `setPhysicsMode` changes `physics.mode` exactly for the four
valid mode strings, leaving every other engine field unchanged; for any
other argument the whole engine state is left unchanged. -/
theorem set_physics_mode (s : ParticleSystem) (mode : String) :
    ((mode = "gravity" ∨ mode = "magnetism" ∨ mode = "turbulence" ∨ mode = "orbital") →
      (s.setPhysicsMode mode).physics.mode = mode
      ∧ (s.setPhysicsMode mode).physics = { s.physics with mode := mode }
      ∧ (s.setPhysicsMode mode).particlePool = s.particlePool
      ∧ (s.setPhysicsMode mode).maxParticles = s.maxParticles
      ∧ (s.setPhysicsMode mode).emission = s.emission
      ∧ (s.setPhysicsMode mode).audioReactive = s.audioReactive
      ∧ (s.setPhysicsMode mode).width = s.width
      ∧ (s.setPhysicsMode mode).height = s.height
      ∧ (s.setPhysicsMode mode).spatialHash = s.spatialHash
      ∧ (s.setPhysicsMode mode).activeParticleCount = s.activeParticleCount
      ∧ (s.setPhysicsMode mode).time = s.time)
    ∧ ((mode ≠ "gravity" ∧ mode ≠ "magnetism" ∧ mode ≠ "turbulence" ∧ mode ≠ "orbital") →
      s.setPhysicsMode mode = s) := by
  constructor
  · intro hval
    have hc : (["gravity", "magnetism", "turbulence", "orbital"] : List String).contains mode = true := by
      rcases hval with h | h | h | h <;> subst h <;> rfl
    unfold ParticleSystem.setPhysicsMode
    dsimp only
    rw [if_pos hc]
    exact ⟨rfl, rfl, rfl, rfl, rfl, rfl, rfl, rfl, rfl, rfl, rfl⟩
  · rintro ⟨h1, h2, h3, h4⟩
    have hc : ¬ ((["gravity", "magnetism", "turbulence", "orbital"] : List String).contains mode = true) := by
      intro hct
      have hmem : mode ∈ (["gravity", "magnetism", "turbulence", "orbital"] : List String) := by
        simpa using hct
      simp only [List.mem_cons, List.mem_singleton] at hmem
      rcases hmem with h | h | h | h
      · exact h1 h
      · exact h2 h
      · exact h3 h
      · exact h4 (by simpa using h)
    unfold ParticleSystem.setPhysicsMode
    dsimp only
    rw [if_neg hc]

/-- Mode string used by the `setPhysicsMode` witness. -/
def orbitalStr : String := "orbital"

theorem set_physics_mode_witness :
    ((ParticleSystem.new 3).setPhysicsMode orbitalStr).physics.mode = orbitalStr
    ∧ ((ParticleSystem.new 3).setPhysicsMode orbitalStr).particlePool
        = (ParticleSystem.new 3).particlePool :=
  ⟨((set_physics_mode (ParticleSystem.new 3) orbitalStr).1
      (Or.inr (Or.inr (Or.inr rfl)))).1,
   ((set_physics_mode (ParticleSystem.new 3) orbitalStr).1
      (Or.inr (Or.inr (Or.inr rfl)))).2.2.1⟩
